import Mathlib

/-!
Verification of the catalog-melodi plugin's CSV acquisition and reshaping
pipeline. Each definition is a shallow embedding of a function of the
repository (file and line references in the comments); theorems settle the
frozen claims about the specification.

Modelling conventions:
* JavaScript strings are Lean `String`s; `line.split(';')` is `jsSplitSemicolon`.
* JavaScript objects used as string-keyed dictionaries are association lists
  `List (String × α)` in insertion order; assignment `obj[k] = v` is `setAssoc`
  (overwrite in place, append if absent), matching JS key-insertion-order
  enumeration semantics.
* IEEE-754 doubles are modelled as exact decimal fixed-point numbers
  (`DecNum`: an integer mantissa and a base-10 exponent, value
  `num / 10 ^ exp`), with `none` = NaN; rounding and the non-finite values
  ±Infinity are outside the modelled range, addition is exact. The source
  stores `total.toString()` and re-reads it with `parseFloat`, which is the
  identity on stored finite values and on NaN, so cells hold the numeric
  value directly.
* `String.trim` of JavaScript is `jsTrim` (drop leading/trailing whitespace
  characters; the modelled whitespace set is `Char.isWhitespace`, covering the
  ASCII whitespace used by the data).
-/

/-- Association-list lookup: first binding wins, like JS property access. -/
def lookupAssoc {α : Type} : List (String × α) → String → Option α
  | [], _ => none
  | (k', v) :: rest, k => if k' = k then some v else lookupAssoc rest k

/-- Key presence test for an association list (JS `key in obj` / `map.has`). -/
def containsKey {α : Type} (m : List (String × α)) (k : String) : Bool :=
  m.any (fun kv => kv.1 = k)

/-- JS assignment `obj[k] = v`: overwrite the value in place if the key exists
(keeping its position in enumeration order), otherwise append the binding. -/
def setAssoc {α : Type} (m : List (String × α)) (k : String) (v : α) :
    List (String × α) :=
  if containsKey m k then m.map (fun kv => if kv.1 = k then (k, v) else kv)
  else m ++ [(k, v)]

/-- JS `String.prototype.trim`: remove leading and trailing whitespace. -/
def jsTrim (s : String) : String :=
  String.mk (((s.data.dropWhile Char.isWhitespace).reverse.dropWhile
    Char.isWhitespace).reverse)

/-- JS `str.replace(/"/g, '')`: delete every double-quote character. -/
def stripQuotes (s : String) : String :=
  String.mk (s.data.filter (fun c => c ≠ '"'))

/-- Accumulator pass of `jsSplitSemicolon` over the characters. -/
def splitSemicolonAux : List Char → List Char → List String
  | [], acc => [String.mk acc.reverse]
  | c :: cs, acc =>
    if c = ';' then String.mk acc.reverse :: splitSemicolonAux cs []
    else splitSemicolonAux cs (c :: acc)

/-- JS `line.split(';')`: the `;`-separated fields, in order; the empty string
splits to `[""]` and separators at the ends produce empty fields. -/
def jsSplitSemicolon (s : String) : List String :=
  splitSemicolonAux s.data []

/-- src/lib/utils/csv.ts:67,91,101 — `str.replace(/"/g, '').trim()`:
strip all quotes, then trim. Used on header names and row field values. -/
def cleanStripTrim (s : String) : String := jsTrim (stripQuotes s)

/-- src/lib/utils/csv.ts:42 — `v.trim().replace(/"/g, '')`: trim, then strip
all quotes. Used on the configured filter values. -/
def cleanTrimStrip (s : String) : String := stripQuotes (jsTrim s)

/-- Wrap a value in one pair of double quotes (csv.ts:78,107). -/
def quoteWrap (s : String) : String := "\"" ++ s ++ "\""

/- ### Volume threshold (claim C1)
src/lib/utils/csv.ts:596 (orchestrator `getResource`) and
src/lib/imports.ts:92 (`countPagging`). -/

/-- src/lib/utils/csv.ts:596 — `if (totalCount > 0 && totalCount <= 100000)`:
the orchestrator `getResource` takes the lightweight direct-CSV path exactly
when this is true, the bulk ZIP path otherwise. -/
def selectsLightweightPath (totalCount : Int) : Bool :=
  totalCount > 0 && totalCount ≤ 100000

/-- src/lib/imports.ts:92 — `totalItems > 0 && totalItems < 100000`: the older
`countPagging` helper reports a dataset as small under the strict bound. -/
def countPaggingSmall (totalItems : Int) : Bool :=
  totalItems > 0 && totalItems < 100000

/- ### Filter normalizer (claim C7), src/lib/utils/common.ts:20-43 -/

/-- One entry of `importConfig.filters` (src/lib/utils/common.ts:111-114). -/
structure FilterConfig where
  selectedConcept : String
  selectedValues : List String
deriving DecidableEq

/-- src/lib/utils/common.ts:20-43 — `buildImportParams`: fold the filter list
into a concept → values dictionary. An entry with empty concept or empty value
list is skipped; a repeated concept merges via `[...new Set([...old, ...new])]`
(`List.eraseDups` keeps the first occurrence of each value, like a JS `Set`);
a first occurrence is stored as a plain copy of its value list. -/
def buildImportParams (filters : List FilterConfig) : List (String × List String) :=
  filters.foldl (fun params f =>
    if f.selectedConcept = "" ∨ f.selectedValues = [] then params
    else
      match lookupAssoc params f.selectedConcept with
      | some old => setAssoc params f.selectedConcept
          ((old ++ f.selectedValues).eraseDups)
      | none => params ++ [(f.selectedConcept, f.selectedValues)]) []

/- ### Multilingual content selector (claim C9),
src/lib/utils/common.ts:8-12 -/

/-- One `{lang, content}` pair of a multilingual title/description. -/
structure LangContent where
  lang : String
  content : String
deriving DecidableEq

/-- src/lib/utils/common.ts:8-12 — `getLanguageContent`: `''` when the array
is absent or empty, else the content of the first entry found with language
`fr` or `FR`, else `''`. -/
def getLanguageContent : Option (List LangContent) → String
  | none => ""
  | some a =>
    if a.length = 0 then ""
    else
      match a.find? (fun item => item.lang = "fr" || item.lang = "FR") with
      | some found => found.content
      | none => ""

/-- Claim-side restatement of C9 for comparison: first-match recursion that
returns the first French entry's content and otherwise the empty string. -/
def firstFrContent : List LangContent → String
  | [] => ""
  | item :: rest =>
    if item.lang = "fr" ∨ item.lang = "FR" then item.content
    else firstFrContent rest

/- ### Theorems for C1, C7, C9 -/

/-- Claim C1 counterexample: the claim states that at a reported count of
exactly 100000 the orchestrator selects the bulk path, i.e. that the
lightweight path is chosen iff the count is strictly positive and strictly
below 100000. At the input 100000 the code's condition
`totalCount > 0 && totalCount <= 100000` is true (lightweight path chosen),
so the claimed equivalence fails there. -/
theorem lightweight_threshold_claim_false :
    ¬ (selectsLightweightPath 100000 = true ↔
        (0 < (100000 : Int) ∧ (100000 : Int) < 100000)) := by
  decide

/-- Claim C1 (amended): the orchestrator `getResource` in
src/lib/utils/csv.ts selects the lightweight direct-CSV path exactly when the
reported count is strictly positive and at most 100000 (the upper bound is
inclusive: at exactly 100000 the lightweight path is selected); the older
`countPagging` helper in src/lib/imports.ts reports a dataset as small under
the strict upper bound (true exactly for counts 1..99999). -/
theorem lightweight_threshold_boundary (n : Int) :
    (selectsLightweightPath n = true ↔ (0 < n ∧ n ≤ 100000)) ∧
    (countPaggingSmall n = true ↔ (0 < n ∧ n < 100000)) := by
  constructor <;>
    simp [selectsLightweightPath, countPaggingSmall, decide_eq_true_eq]

/-- Claim C7 (code bug evidence): evaluated at the failing input
`[{selectedConcept: "GEO", selectedValues: ["A", "A"]}]`, the normalizer
returns `{GEO: ["A", "A"]}` — the value list keeps the duplicate, because the
first-occurrence branch (`params[code] = [...values]`) copies the list without
deduplication, contradicting the function's own documentation ("deduplicated
dictionary", "values are unique selected values") and therefore the claim. -/
theorem buildImportParams_single_entry_keeps_duplicates :
    buildImportParams [{ selectedConcept := "GEO", selectedValues := ["A", "A"] }]
      = [("GEO", ["A", "A"])] ∧
    ¬ (["A", "A"] : List String).Nodup := by
  constructor
  · rfl
  · decide

/-- Claim C9: the multilingual selector returns the content of the first entry
whose language is `fr` or `FR`, and the empty string when the list is absent,
empty, or contains no such entry; it never falls back to another language.
This is stated as equality with the first-match recursion `firstFrContent`. -/
theorem getLanguageContent_first_fr :
    getLanguageContent none = "" ∧
    ∀ l : List LangContent, getLanguageContent (some l) = firstFrContent l := by
  refine ⟨rfl, ?_⟩
  intro l
  induction l with
  | nil => rfl
  | cons item rest ih =>
    by_cases h : item.lang = "fr" ∨ item.lang = "FR"
    · simp [getLanguageContent, firstFrContent, List.find?, h]
      rcases h with h | h <;> simp [h]
    · push_neg at h
      simp [getLanguageContent, firstFrContent, List.find?, h.1, h.2]
      rw [← ih]
      cases rest with
      | nil => rfl
      | cons b bs => simp [getLanguageContent]

/- ### CSV filter-extractor (claims C2, C3, C10),
src/lib/utils/csv.ts:15-128 (`extractCsvWithFilters`).
The streamed line loop (csv.ts:60-112) is modelled as pure functions over the
list of input lines; the emitted file is the list of written lines. -/

/-- src/lib/utils/csv.ts:54 — the reserved column names treated as numeric. -/
def NUMERIC_COLUMNS : List String := ["TIME_PERIOD", "OBS_VALUE"]

/-- src/lib/utils/csv.ts:40-43 — clean each filter's values
(`v.trim().replace(/"/g, '')`) and collect them into a set; a JS `Set` keeps
the first occurrence of each element (`List.eraseDups`), and membership is
unaffected. -/
def mkFilterSets (filters : List (String × List String)) :
    List (String × List String) :=
  filters.map (fun kv => (kv.1, (kv.2.map cleanTrimStrip).eraseDups))

/-- src/lib/utils/csv.ts:76-79 — transformed header fields: a reserved numeric
column name is written bare, every other cleaned name is quote-wrapped. -/
def newHeadersOf (columns : List String) : List String :=
  columns.map (fun c =>
    if cleanStripTrim c ∈ NUMERIC_COLUMNS then cleanStripTrim c
    else quoteWrap (cleanStripTrim c))

/-- src/lib/utils/csv.ts:74-75 — `numericIndices`: the indices whose cleaned
header name is a reserved numeric column (accumulated in column order). -/
def numericIndicesFrom (i : Nat) : List String → List Nat
  | [] => []
  | c :: cs =>
    if cleanStripTrim c ∈ NUMERIC_COLUMNS then
      i :: numericIndicesFrom (i + 1) cs
    else numericIndicesFrom (i + 1) cs

/-- Indices of the reserved numeric columns of a header row (csv.ts:56,74). -/
def numericIndicesOf (columns : List String) : List Nat :=
  numericIndicesFrom 0 columns

/-- src/lib/utils/csv.ts:69-72 — `filterIndices`: scan the header left to
right; whenever the cleaned name is a key of the filter mapping, record
`filterIndices[cleanName] = i` (a later duplicate header name overwrites the
stored index, keeping the key's first-seen enumeration position). -/
def filterIndicesFrom (filterKeys : List String) (acc : List (String × Nat))
    (i : Nat) : List String → List (String × Nat)
  | [] => acc
  | c :: cs =>
    filterIndicesFrom filterKeys
      (if cleanStripTrim c ∈ filterKeys then
        setAssoc acc (cleanStripTrim c) i
      else acc) (i + 1) cs

/-- Column indices recorded for the filtered concepts (csv.ts:57,69-72). -/
def filterIndicesOf (filterKeys : List String) (columns : List String) :
    List (String × Nat) :=
  filterIndicesFrom filterKeys [] 0 columns

/-- src/lib/utils/csv.ts:86-96 — a data row is kept when for every recorded
filter index the cleaned field value (`(columns[idx] || '').replace(/"/g, '')
.trim()`) is a member of that dimension's allow-set. -/
def rowKeep (filterSets : List (String × List String))
    (filterIndices : List (String × Nat)) (columns : List String) : Bool :=
  filterIndices.all (fun di =>
    match lookupAssoc filterSets di.1 with
    | some allowed => decide (cleanStripTrim (columns.getD di.2 "") ∈ allowed)
    | none => false)

/-- src/lib/utils/csv.ts:100-108 — rewrite a kept row, field by field with its
column index (`columns.map((col, index) => ...)`): each field is cleaned; an
empty cleaned value becomes a bare empty field, a reserved numeric column's
value is written bare, every other value is quote-wrapped. -/
def transformRowFrom (numericIndices : List Nat) (i : Nat) :
    List String → List String
  | [] => []
  | c :: cs =>
    (if cleanStripTrim c = "" then ""
     else if i ∈ numericIndices then cleanStripTrim c
     else quoteWrap (cleanStripTrim c)) ::
      transformRowFrom numericIndices (i + 1) cs

/-- The rewritten fields of a kept row (csv.ts:100-108), indexed from 0. -/
def transformRow (numericIndices : List Nat) (columns : List String) :
    List String :=
  transformRowFrom numericIndices 0 columns

/-- src/lib/utils/csv.ts:60-61,86-111 — the loop over the lines after the
header: blank lines are skipped, kept rows are transformed and written. -/
def extractDataLines (filterSets : List (String × List String))
    (filterIndices : List (String × Nat)) (numericIndices : List Nat) :
    List String → List String
  | [] => []
  | l :: ls =>
    if jsTrim l = "" then
      extractDataLines filterSets filterIndices numericIndices ls
    else if rowKeep filterSets filterIndices (jsSplitSemicolon l) then
      String.intercalate ";" (transformRow numericIndices (jsSplitSemicolon l)) ::
        extractDataLines filterSets filterIndices numericIndices ls
    else extractDataLines filterSets filterIndices numericIndices ls

/-- src/lib/utils/csv.ts:60-112 — the full line loop: skip blank lines until
the first non-blank line, process it as the header (writing the transformed
header line), then process the remaining lines as data rows. -/
def extractCsvWithFilters (filters : List (String × List String)) :
    List String → List String
  | [] => []
  | l :: ls =>
    if jsTrim l = "" then extractCsvWithFilters filters ls
    else
      String.intercalate ";" (newHeadersOf (jsSplitSemicolon l)) ::
        extractDataLines (mkFilterSets filters)
          (filterIndicesOf (filters.map Prod.fst) (jsSplitSemicolon l))
          (numericIndicesOf (jsSplitSemicolon l)) ls

/- ### Supporting lemmas for the extractor -/

/-- The data loop is the filter of the non-blank kept rows, each transformed,
in input order. -/
theorem extractDataLines_eq_filter_map (fs : List (String × List String))
    (fi : List (String × Nat)) (ni : List Nat) (ls : List String) :
    extractDataLines fs fi ni ls =
      (ls.filter (fun l => jsTrim l != "" && rowKeep fs fi (jsSplitSemicolon l))).map
        (fun l => String.intercalate ";" (transformRow ni (jsSplitSemicolon l))) := by
  induction ls with
  | nil => rfl
  | cons l ls ih =>
    simp only [extractDataLines, List.filter_cons]
    by_cases hb : jsTrim l = ""
    · simp [hb, ih]
    · have hne : (jsTrim l != "") = true := by simp [hb]
      by_cases hk : rowKeep fs fi (jsSplitSemicolon l) = true
      · simp [hb, hk, hne, ih]
      · simp [hb, hk, hne, ih, Bool.and_eq_true]

/-- Membership in `setAssoc`: a binding of the result is either an untouched
binding of the original list or carries the assigned key. -/
theorem mem_setAssoc {α : Type} (m : List (String × α)) (k : String) (v : α)
    (p : String × α) (hp : p ∈ setAssoc m k v) : p ∈ m ∨ p.1 = k := by
  unfold setAssoc at hp
  by_cases hc : containsKey m k = true
  · simp only [hc, if_pos] at hp
    rcases List.mem_map.mp hp with ⟨q, hq, heq⟩
    by_cases hqk : q.1 = k
    · right
      rw [if_pos hqk] at heq
      rw [← heq]
    · left
      rw [if_neg hqk] at heq
      rwa [← heq]
  · simp only [hc] at hp
    simp only [Bool.false_eq_true, if_false, List.mem_append,
      List.mem_singleton] at hp
    rcases hp with hp | hp
    · exact Or.inl hp
    · right; rw [hp]

/-- Every binding recorded by the header scan has a key that is both a filter
concept and the cleaned name of some header column. -/
theorem mem_filterIndicesFrom (fk : List String) (cols : List String) :
    ∀ (acc : List (String × Nat)) (i : Nat) (p : String × Nat),
      p ∈ filterIndicesFrom fk acc i cols →
      p ∈ acc ∨ (p.1 ∈ fk ∧ p.1 ∈ cols.map cleanStripTrim) := by
  induction cols with
  | nil => intro acc i p hp; exact Or.inl hp
  | cons c cs ih =>
    intro acc i p hp
    unfold filterIndicesFrom at hp
    by_cases hc : cleanStripTrim c ∈ fk
    · rw [if_pos hc] at hp
      rcases ih _ _ _ hp with hin | ⟨h1, h2⟩
      · rcases mem_setAssoc _ _ _ _ hin with hin | hkey
        · exact Or.inl hin
        · exact Or.inr ⟨hkey ▸ hc, by simp [hkey]⟩
      · exact Or.inr ⟨h1, by simp [h2]⟩
    · rw [if_neg hc] at hp
      rcases ih _ _ _ hp with hin | ⟨h1, h2⟩
      · exact Or.inl hin
      · exact Or.inr ⟨h1, by simp [h2]⟩

/-- When no filter concept matches any cleaned header name, the header scan
records nothing. -/
theorem filterIndicesFrom_of_absent (fk : List String) (cols : List String)
    (hcols : ∀ c ∈ cols, cleanStripTrim c ∉ fk) :
    ∀ (acc : List (String × Nat)) (i : Nat),
      filterIndicesFrom fk acc i cols = acc := by
  induction cols with
  | nil => intro acc i; rfl
  | cons c cs ih =>
    intro acc i
    unfold filterIndicesFrom
    rw [if_neg (hcols c (by simp))]
    exact ih (fun x hx => hcols x (by simp [hx])) acc (i + 1)

/-- Membership of the recorded numeric indices, relative to the running start
index. -/
theorem mem_numericIndicesFrom (cs : List String) :
    ∀ (i j : Nat), j ∈ numericIndicesFrom i cs ↔
      ∃ d, d < cs.length ∧ j = i + d ∧
        cleanStripTrim (cs.getD d "") ∈ NUMERIC_COLUMNS := by
  induction cs with
  | nil => intro i j; simp [numericIndicesFrom]
  | cons c cs ih =>
    intro i j
    unfold numericIndicesFrom
    by_cases hc : cleanStripTrim c ∈ NUMERIC_COLUMNS
    · rw [if_pos hc]
      simp only [List.mem_cons, ih]
      constructor
      · rintro (rfl | ⟨d, hd, rfl, hp⟩)
        · exact ⟨0, by simp, by simp, by simpa using hc⟩
        · exact ⟨d + 1, by simpa using hd, by omega, by simpa using hp⟩
      · rintro ⟨d, hd, hj, hp⟩
        cases d with
        | zero => left; simpa using hj
        | succ d =>
          right
          exact ⟨d, by simpa using hd, by omega, by simpa using hp⟩
    · rw [if_neg hc]
      rw [ih]
      constructor
      · rintro ⟨d, hd, rfl, hp⟩
        exact ⟨d + 1, by simpa using hd, by omega, by simpa using hp⟩
      · rintro ⟨d, hd, hj, hp⟩
        cases d with
        | zero =>
          exact absurd (by simpa using hp) hc
        | succ d =>
          exact ⟨d, by simpa using hd, by omega, by simpa using hp⟩

/-- A column index is recorded as numeric exactly when it points at a header
column whose cleaned name is one of the reserved numeric names. -/
theorem mem_numericIndicesOf (cols : List String) (j : Nat) :
    j ∈ numericIndicesOf cols ↔
      j < cols.length ∧ cleanStripTrim (cols.getD j "") ∈ NUMERIC_COLUMNS := by
  rw [numericIndicesOf, mem_numericIndicesFrom]
  constructor
  · rintro ⟨d, hd, hj, hp⟩
    refine ⟨by omega, ?_⟩
    have hjd : j = d := by omega
    rw [hjd]
    exact hp
  · rintro ⟨hj, hp⟩
    exact ⟨j, hj, by omega, hp⟩

/-- Cleaned values contain no double-quote character: the cleaning first
deletes every quote and trimming only removes characters. -/
theorem count_quote_cleanStripTrim (s : String) :
    (cleanStripTrim s).data.count '"' = 0 := by
  have h1 : (stripQuotes s).data.count '"' = 0 := by
    simp only [stripQuotes, List.count_eq_zero]
    intro hmem
    rcases List.mem_filter.mp hmem with ⟨_, hne⟩
    simp at hne
  have h2 : (jsTrim (stripQuotes s)).data.Sublist (stripQuotes s).data := by
    show ((((stripQuotes s).data.dropWhile Char.isWhitespace).reverse.dropWhile
      Char.isWhitespace).reverse).Sublist (stripQuotes s).data
    have a1 : (((stripQuotes s).data.dropWhile
        Char.isWhitespace).reverse.dropWhile Char.isWhitespace).Sublist
        ((stripQuotes s).data.dropWhile Char.isWhitespace).reverse :=
      List.dropWhile_sublist _
    have a2 := a1.reverse
    rw [List.reverse_reverse] at a2
    exact a2.trans (List.dropWhile_sublist _)
  have hle := h2.count_le '"'
  unfold cleanStripTrim
  omega

/-- The rewritten row has one output field per input field, and the field at
the running index `i + j` is the source field's cleaned value, formatted by
the empty/numeric/quoted rule. -/
theorem transformRowFrom_spec (ni : List Nat) (cs : List String) :
    ∀ (i : Nat), (transformRowFrom ni i cs).length = cs.length ∧
      ∀ j, j < cs.length →
        (transformRowFrom ni i cs).getD j "" =
          (if cleanStripTrim (cs.getD j "") = "" then ""
           else if i + j ∈ ni then cleanStripTrim (cs.getD j "")
           else quoteWrap (cleanStripTrim (cs.getD j ""))) := by
  induction cs with
  | nil => intro i; exact ⟨rfl, fun j hj => by simp at hj⟩
  | cons c cs ih =>
    intro i
    refine ⟨by simpa [transformRowFrom] using (ih (i + 1)).1, ?_⟩
    intro j hj
    cases j with
    | zero => simp [transformRowFrom]
    | succ j =>
      have hrec := (ih (i + 1)).2 j (by simpa using hj)
      simp only [transformRowFrom, List.getD_cons_succ]
      rw [hrec]
      have : i + 1 + j = i + (j + 1) := by omega
      rw [this]

/-- Claim C2: with a given filter mapping, a non-empty data row is written to
the output exactly when every recorded filtered column's cleaned field value
is a member of that column's allow-set (`rowKeep`), survivors are written in
input order (the output's data segment is the order-preserving filter of the
input rows, each transformed), and the output line count is at most the input
line count. -/
theorem extract_rows_filter_iff (filters : List (String × List String))
    (hdr : String) (ds : List String) (hh : jsTrim hdr ≠ "") :
    extractCsvWithFilters filters (hdr :: ds) =
      String.intercalate ";" (newHeadersOf (jsSplitSemicolon hdr)) ::
        (ds.filter (fun l => jsTrim l != "" &&
            rowKeep (mkFilterSets filters)
              (filterIndicesOf (filters.map Prod.fst) (jsSplitSemicolon hdr))
              (jsSplitSemicolon l))).map
          (fun l => String.intercalate ";"
            (transformRow (numericIndicesOf (jsSplitSemicolon hdr)) (jsSplitSemicolon l))) ∧
    (extractCsvWithFilters filters (hdr :: ds)).length ≤ (hdr :: ds).length := by
  have h1 : extractCsvWithFilters filters (hdr :: ds) =
      String.intercalate ";" (newHeadersOf (jsSplitSemicolon hdr)) ::
        (ds.filter (fun l => jsTrim l != "" &&
            rowKeep (mkFilterSets filters)
              (filterIndicesOf (filters.map Prod.fst) (jsSplitSemicolon hdr))
              (jsSplitSemicolon l))).map
          (fun l => String.intercalate ";"
            (transformRow (numericIndicesOf (jsSplitSemicolon hdr)) (jsSplitSemicolon l))) := by
    unfold extractCsvWithFilters
    rw [if_neg hh, extractDataLines_eq_filter_map]
  refine ⟨h1, ?_⟩
  rw [h1]
  simp only [List.length_cons, List.length_map, Nat.succ_le_succ_iff]
  exact List.length_filter_le _ ds

/-- Claim C2 witness, the scenario of the specification: with the filter
`GEO → {FR}` over a `GEO;OBS_VALUE` source, only the `FR` row survives, in
order, rewritten with the quoting rule. -/
theorem extract_rows_filter_iff_witness :
    extractCsvWithFilters [("GEO", ["FR"])] ["GEO;OBS_VALUE", "FR;10", "DE;5"]
      = ["\"GEO\";OBS_VALUE", "\"FR\";10"] := by
  have h := (extract_rows_filter_iff [("GEO", ["FR"])] "GEO;OBS_VALUE"
    ["FR;10", "DE;5"] (by decide)).1
  exact h.trans (by decide)

/-- Claim C3: for every field of a rewritten row the output is: the bare empty
field when the cleaned value is empty; the bare cleaned value when the field's
column is one of the two reserved numeric columns (cleaned header name
`TIME_PERIOD` or `OBS_VALUE`); otherwise the cleaned value wrapped in exactly
one pair of double quotes — the wrapped text is a quote, then a quote-free
value, then a quote, regardless of the quoting of the input field. -/
theorem extract_field_quoting (headerCols cols : List String) (i : Nat)
    (hi : i < cols.length) :
    (transformRow (numericIndicesOf headerCols) cols).getD i "" =
      (if cleanStripTrim (cols.getD i "") = "" then ""
       else if i < headerCols.length ∧
           cleanStripTrim (headerCols.getD i "") ∈ NUMERIC_COLUMNS then
         cleanStripTrim (cols.getD i "")
       else quoteWrap (cleanStripTrim (cols.getD i ""))) ∧
    (quoteWrap (cleanStripTrim (cols.getD i ""))).data =
      '"' :: ((cleanStripTrim (cols.getD i "")).data ++ ['"']) ∧
    (cleanStripTrim (cols.getD i "")).data.count '"' = 0 ∧
    (transformRow (numericIndicesOf headerCols) cols).length = cols.length := by
  refine ⟨?_, ?_, count_quote_cleanStripTrim _, (transformRowFrom_spec _ _ 0).1⟩
  · have h := (transformRowFrom_spec (numericIndicesOf headerCols) cols 0).2 i hi
    rw [transformRow, h]
    have hz : 0 + i = i := Nat.zero_add i
    rw [hz]
    have hmem := mem_numericIndicesOf headerCols i
    by_cases he : cleanStripTrim (cols.getD i "") = ""
    · rw [if_pos he, if_pos he]
    · rw [if_neg he, if_neg he]
      by_cases hn : i < headerCols.length ∧
          cleanStripTrim (headerCols.getD i "") ∈ NUMERIC_COLUMNS
      · rw [if_pos (hmem.mpr hn), if_pos hn]
      · rw [if_neg (fun hin => hn (hmem.mp hin)), if_neg hn]
  · show ("\"" ++ cleanStripTrim (cols.getD i "") ++ "\"").data = _
    simp

/-- Claim C3 witness: in a row under header `GEO;TIME_PERIOD;X` the
multiply-quoted field `""FR""` is rewritten as `"FR"` (one pair of quotes),
the value under the reserved `TIME_PERIOD` column is written bare, and an
empty field stays bare. -/
theorem extract_field_quoting_witness :
    (transformRow (numericIndicesOf ["GEO", "TIME_PERIOD", "X"])
        ["\"\"FR\"\"", "2021", ""]).getD 0 "" = "\"FR\"" ∧
    (transformRow (numericIndicesOf ["GEO", "TIME_PERIOD", "X"])
        ["\"\"FR\"\"", "2021", ""]).getD 1 "" = "2021" ∧
    (transformRow (numericIndicesOf ["GEO", "TIME_PERIOD", "X"])
        ["\"\"FR\"\"", "2021", ""]).getD 2 "" = "" := by
  refine ⟨?_, ?_, ?_⟩
  · have h := (extract_field_quoting ["GEO", "TIME_PERIOD", "X"]
      ["\"\"FR\"\"", "2021", ""] 0 (by decide)).1
    exact h.trans (by decide)
  · have h := (extract_field_quoting ["GEO", "TIME_PERIOD", "X"]
      ["\"\"FR\"\"", "2021", ""] 1 (by decide)).1
    exact h.trans (by decide)
  · have h := (extract_field_quoting ["GEO", "TIME_PERIOD", "X"]
      ["\"\"FR\"\"", "2021", ""] 2 (by decide)).1
    exact h.trans (by decide)

/-- Claim C10: every recorded filter binding's concept is both a configured
filter key and the cleaned name of a header column; consequently, when every
configured concept is absent from the cleaned header names, nothing is
recorded and every non-empty data row is written to the output (only the
blank-line filter remains). -/
theorem filters_absent_no_constraint (filters : List (String × List String))
    (hdr : String) (ds : List String) (hh : jsTrim hdr ≠ "")
    (habs : ∀ k ∈ filters.map Prod.fst,
      k ∉ (jsSplitSemicolon hdr).map cleanStripTrim) :
    (∀ (fk : List String) (cols : List String) (p : String × Nat),
      p ∈ filterIndicesOf fk cols →
        p.1 ∈ fk ∧ p.1 ∈ cols.map cleanStripTrim) ∧
    filterIndicesOf (filters.map Prod.fst) (jsSplitSemicolon hdr) = [] ∧
    extractCsvWithFilters filters (hdr :: ds) =
      String.intercalate ";" (newHeadersOf (jsSplitSemicolon hdr)) ::
        (ds.filter (fun l => jsTrim l != "")).map
          (fun l => String.intercalate ";"
            (transformRow (numericIndicesOf (jsSplitSemicolon hdr)) (jsSplitSemicolon l))) := by
  have hgen : ∀ (fk : List String) (cols : List String) (p : String × Nat),
      p ∈ filterIndicesOf fk cols →
        p.1 ∈ fk ∧ p.1 ∈ cols.map cleanStripTrim := by
    intro fk cols p hp
    rcases mem_filterIndicesFrom fk cols [] 0 p hp with hin | h
    · simp at hin
    · exact h
  have hempty : filterIndicesOf (filters.map Prod.fst) (jsSplitSemicolon hdr) = [] := by
    apply filterIndicesFrom_of_absent
    intro c hc hmem
    exact habs _ hmem (List.mem_map.mpr ⟨c, hc, rfl⟩)
  refine ⟨hgen, hempty, ?_⟩
  have h1 := (extract_rows_filter_iff filters hdr ds hh).1
  rw [h1, hempty]
  have : ∀ l : String,
      (jsTrim l != "" && rowKeep (mkFilterSets filters) [] (jsSplitSemicolon l))
        = (jsTrim l != "") := by
    intro l
    simp [rowKeep]
  simp only [this]

/-- Claim C10 witness: a filter on the concept `SEXE`, absent from the header
`GEO;OBS_VALUE`, records no column index and constrains nothing — both data
rows are written. -/
theorem filters_absent_no_constraint_witness :
    extractCsvWithFilters [("SEXE", ["F"])] ["GEO;OBS_VALUE", "FR;10", "DE;5"]
      = ["\"GEO\";OBS_VALUE", "\"FR\";10", "\"DE\";5"] := by
  have h := (filters_absent_no_constraint [("SEXE", ["F"])] "GEO;OBS_VALUE"
    ["FR;10", "DE;5"] (by decide) (by decide)).2.2
  exact h.trans (by decide)

/- ### Streaming downloader (claim C8),
src/lib/utils/download.ts:14-88 (`downloadFileWithProgress`).
The event-driven stream lifecycle is modelled as a fold over the ordered
events the source registers handlers for: each constructor below corresponds
to one handler/branch of the source. Progress reporting (log-only) is not
part of the file-state model. -/

/-- Resolution state of the promise returned by the downloader. -/
inductive DlStatus where
  | running
  | resolved
  | rejected
deriving DecidableEq

/-- Observable download state: content of the destination file (`none` = the
file is absent/deleted) and the promise's resolution state. -/
structure DlState where
  file : Option (List Nat)
  status : DlStatus
deriving DecidableEq

/-- The events the source wires handlers for, in the order they can fire. -/
inductive DlEvent where
  /-- download.ts:44,55 — a `data` chunk arrives and is piped to the writer. -/
  | chunk (bytes : List Nat)
  /-- download.ts:60-64 — the writer's `finish` event: resolve with the path. -/
  | endOk
  /-- download.ts:66-77 — `error` on the writer or the response stream:
  `handleError` closes the writer, unlinks the destination, rejects. -/
  | errEvent
  /-- download.ts:79-87 — `axios.get` throws before streaming begins: the
  catch block closes the writer, unlinks the (possibly zero-byte) file,
  rethrows. -/
  | preFail

/-- One step of the download lifecycle (handlers of download.ts:44-87). -/
def dlStep (s : DlState) (e : DlEvent) : DlState :=
  match e with
  | .chunk bs =>
    match s.file with
    | some content => { s with file := some (content ++ bs) }
    | none => s
  | .endOk => { s with status := .resolved }
  | .errEvent => { file := none, status := .rejected }
  | .preFail => { file := none, status := .rejected }

/-- The network outcome seen by the function: the request either throws
before a stream exists, or yields a stream of chunks that either ends cleanly
(`errorAfter = none`) or errors after `n` delivered chunks. -/
inductive NetResponse where
  | failure
  | stream (chunks : List (List Nat)) (errorAfter : Option Nat)

/-- The event sequence a network outcome produces. -/
def dlEvents : NetResponse → List DlEvent
  | .failure => [.preFail]
  | .stream chunks none => chunks.map DlEvent.chunk ++ [.endOk]
  | .stream chunks (some n) => (chunks.take n).map DlEvent.chunk ++ [.errEvent]

/-- src/lib/utils/download.ts:14-88 — `downloadFileWithProgress`: open the
destination file (`fs.createWriteStream`, an empty file), then run the
lifecycle events of the response. -/
def downloadFileWithProgress (resp : NetResponse) : DlState :=
  (dlEvents resp).foldl dlStep { file := some [], status := .running }

/-- Folding chunk events from an intact running file appends their bytes. -/
theorem dlStep_chunks (chunks : List (List Nat)) :
    ∀ (content : List Nat),
      (chunks.map DlEvent.chunk).foldl dlStep
          { file := some content, status := .running } =
        { file := some (content ++ chunks.flatten), status := .running } := by
  induction chunks with
  | nil => intro content; simp [DlState.mk.injEq]
  | cons c cs ih =>
    intro content
    simp only [List.map_cons, List.foldl_cons, dlStep]
    rw [ih (content ++ c)]
    simp [DlState.mk.injEq]

/-- Claim C8: the destination file exists (with the complete streamed
content) if and only if the call resolves successfully; on any failure —
pre-stream request error, or a stream/write error after any number of
chunks — the destination file is deleted and the call rejects. -/
theorem download_complete_iff_success (resp : NetResponse) :
    ((downloadFileWithProgress resp).status = DlStatus.resolved ↔
      ∃ chunks, resp = NetResponse.stream chunks none ∧
        (downloadFileWithProgress resp).file = some chunks.flatten) ∧
    ((downloadFileWithProgress resp).status = DlStatus.rejected →
      (downloadFileWithProgress resp).file = none) ∧
    ((downloadFileWithProgress resp).status = DlStatus.resolved ∨
      (downloadFileWithProgress resp).status = DlStatus.rejected) := by
  match resp with
  | .failure =>
    refine ⟨?_, ?_, ?_⟩
    · constructor
      · intro h
        simp [downloadFileWithProgress, dlEvents, dlStep] at h
      · rintro ⟨chunks, hc, _⟩
        cases hc
    · intro _
      rfl
    · right
      rfl
  | .stream chunks none =>
    have hrun : downloadFileWithProgress (.stream chunks none) =
        { file := some chunks.flatten, status := .resolved } := by
      unfold downloadFileWithProgress dlEvents
      rw [List.foldl_append, dlStep_chunks chunks []]
      simp [dlStep]
    refine ⟨?_, ?_, ?_⟩
    · rw [hrun]
      constructor
      · intro _
        exact ⟨chunks, rfl, rfl⟩
      · intro _
        rfl
    · rw [hrun]
      intro h
      cases h
    · left
      rw [hrun]
  | .stream chunks (some n) =>
    have hrun : downloadFileWithProgress (.stream chunks (some n)) =
        { file := none, status := .rejected } := by
      unfold downloadFileWithProgress dlEvents
      rw [List.foldl_append, dlStep_chunks (chunks.take n) []]
      simp [dlStep]
    refine ⟨?_, ?_, ?_⟩
    · rw [hrun]
      constructor
      · intro h
        cases h
      · rintro ⟨cs, hc, _⟩
        cases hc
    · intro _
      rw [hrun]
    · right
      rw [hrun]

/-- Claim C8 witness: a stream of two chunks erroring after the first is
rejected with the partial destination file deleted; the same stream ending
cleanly resolves with the complete content on disk. -/
theorem download_complete_iff_success_witness :
    (downloadFileWithProgress (.stream [[1, 2], [3]] (some 1))).file = none ∧
    (downloadFileWithProgress (.stream [[1, 2], [3]] none)).file
      = some [1, 2, 3] := by
  constructor
  · exact (download_complete_iff_success (.stream [[1, 2], [3]] (some 1))).2.1
      (by rfl)
  · rcases (download_complete_iff_success (.stream [[1, 2], [3]] none)).1.mp
      (by rfl) with ⟨cs, hcs, hfile⟩
    cases hcs
    exact hfile

/- ### Pivot transformer (claims C4, C5, C6),
src/lib/utils/csv.ts:145-354 (`pivotCsv`).
The streamed line loop (csv.ts:196-283) is modelled as a fold of `pivotLine`
over the list of source lines; the emitted wide CSV (csv.ts:286-311) is
`pivotOutputLines`. Schema generation (csv.ts:321-342) is not referred to by
any claim and is not modelled. -/

/-- An exact decimal number: the value `num / 10 ^ exp`. The numbers reached
by the pivot pass (parsed decimals and their sums) are all of this shape, so
the finite doubles of the source are modelled exactly. -/
structure DecNum where
  num : Int
  exp : Nat
deriving DecidableEq

/-- Ten to a natural power, as an integer. -/
def pow10 : Nat → Int
  | 0 => 1
  | n + 1 => 10 * pow10 n

/-- Exact addition of decimal numbers, aligning the exponents. -/
def decAdd (a b : DecNum) : DecNum :=
  { num := a.num * pow10 (max a.exp b.exp - a.exp) +
      b.num * pow10 (max a.exp b.exp - b.exp)
    exp := max a.exp b.exp }

/-- Scale a decimal number by `10 ^ k` for an integer `k` (the exponent part
of a parsed float). -/
def decShift (d : DecNum) (k : Int) : DecNum :=
  if 0 ≤ k then { num := d.num * pow10 k.toNat, exp := d.exp }
  else { num := d.num, exp := d.exp + k.natAbs }

/-- A JavaScript number: `some d` is a finite double modelled exactly,
`none` is NaN. -/
abbrev JsNum := Option DecNum

/-- Addition of JavaScript numbers: NaN absorbs. -/
def jsAdd : JsNum → JsNum → JsNum
  | some a, some b => some (decAdd a b)
  | _, _ => none

/-- Value of a digit string (most significant first). -/
def digitsToNat (ds : List Char) : Nat :=
  ds.foldl (fun n c => 10 * n + (c.toNat - 48)) 0

/-- JS `parseFloat`: skip leading whitespace, read an optional sign, integer
digits, an optional fraction and an optional exponent from the longest valid
numeric front of the string; NaN (`none`) when no digit is read. The literal
`Infinity`, accepted by `parseFloat`, is outside the modelled range and is
treated as no-parse; it is unreachable from the repository's data path. -/
def jsParseFloat (s : String) : JsNum :=
  let cs := s.data.dropWhile Char.isWhitespace
  let signNeg := cs.head? = some '-'
  let cs1 := if cs.head? = some '-' ∨ cs.head? = some '+' then cs.tail else cs
  let ip := cs1.takeWhile Char.isDigit
  let cs2 := cs1.dropWhile Char.isDigit
  let fp := if cs2.head? = some '.' then cs2.tail.takeWhile Char.isDigit else []
  let cs3 := if cs2.head? = some '.' then cs2.tail.dropWhile Char.isDigit else cs2
  if ip.isEmpty ∧ fp.isEmpty then none
  else
    let mantissa : Int := digitsToNat (ip ++ fp)
    let expPart : Int :=
      match cs3 with
      | [] => 0
      | e :: r =>
        if e = 'e' ∨ e = 'E' then
          let eneg := r.head? = some '-'
          let r1 := if r.head? = some '-' ∨ r.head? = some '+' then r.tail else r
          let eds := r1.takeWhile Char.isDigit
          if eds.isEmpty then 0
          else if eneg then -(digitsToNat eds : Int) else (digitsToNat eds : Int)
        else 0
    some (decShift
      { num := if signNeg then -mantissa else mantissa, exp := fp.length }
      expPart)

/-- Character pass of `replaceFirstComma`. -/
def replaceFirstCommaAux : List Char → List Char
  | [] => []
  | c :: cs => if c = ',' then '.' :: cs else c :: replaceFirstCommaAux cs

/-- JS `str.replace(',', '.')`: replace only the first comma. -/
def replaceFirstComma (s : String) : String :=
  String.mk (replaceFirstCommaAux s.data)

/-- src/lib/utils/csv.ts:274-275 — `parseFloat(x.replace(',', '.'))`: the
locale-tolerant number parse used on observation values. -/
def parseJsNumber (s : String) : JsNum := jsParseFloat (replaceFirstComma s)

/-- Drop factors of ten from the mantissa into the exponent, so that the
printed expansion is the shortest one, as `Number.prototype.toString`
produces. -/
def stripTrailingZeros : Int → Nat → Int × Nat
  | n, 0 => (n, 0)
  | n, e + 1 =>
    if n % 10 = 0 ∧ n ≠ 0 then stripTrailingZeros (n / 10) e
    else (n, e + 1)

/-- JS `Number.prototype.toString` for the decimal values reached by the
pivot accumulation: the shortest exact decimal expansion, without an
exponent (the exponent notation used by JS beyond `1e21`/`1e-7` is outside
the modelled range). -/
def printDecNum (d : DecNum) : String :=
  let ne := stripTrailingZeros d.num d.exp
  if ne.2 = 0 then toString ne.1
  else
    let ds := (toString ne.1.natAbs).data
    let ds := if ds.length < ne.2 + 1 then
        List.replicate (ne.2 + 1 - ds.length) '0' ++ ds
      else ds
    (if ne.1 < 0 then "-" else "") ++ String.mk (ds.take (ds.length - ne.2)) ++
      "." ++ String.mk (ds.drop (ds.length - ne.2))

/-- The string a stored cell renders to (`total.toString()`, csv.ts:277). -/
def printJsNum : JsNum → String
  | none => "NaN"
  | some d => printDecNum d

/-- JS `String.prototype.toLowerCase` restricted to ASCII and Latin-1
letters (the repository's data is in this range). -/
def jsLowerChar (c : Char) : Char :=
  if 'A' ≤ c ∧ c ≤ 'Z' then Char.ofNat (c.toNat + 32)
  else if 'À' ≤ c ∧ c ≤ 'Þ' ∧ c ≠ '×' then Char.ofNat (c.toNat + 32)
  else c

/-- Net effect of `normalize('NFD').replace(/[̀-ͯ]/g, '')` on a
lowercase Latin-1 letter: the accented letter decomposes into its base letter
followed by combining marks and the marks are stripped (they would also be
dropped by the following alphanumeric filter). Letters without a canonical
decomposition are returned unchanged. -/
def nfdBase (c : Char) : Char :=
  if c = 'à' ∨ c = 'á' ∨ c = 'â' ∨ c = 'ã' ∨ c = 'ä' ∨ c = 'å' then 'a'
  else if c = 'ç' then 'c'
  else if c = 'è' ∨ c = 'é' ∨ c = 'ê' ∨ c = 'ë' then 'e'
  else if c = 'ì' ∨ c = 'í' ∨ c = 'î' ∨ c = 'ï' then 'i'
  else if c = 'ñ' then 'n'
  else if c = 'ò' ∨ c = 'ó' ∨ c = 'ô' ∨ c = 'õ' ∨ c = 'ö' then 'o'
  else if c = 'ù' ∨ c = 'ú' ∨ c = 'û' ∨ c = 'ü' then 'u'
  else if c = 'ý' ∨ c = 'ÿ' then 'y'
  else c

/-- Characters kept by `replace(/[^a-z0-9]/g, '')`. -/
def isLowerAlnumChar (c : Char) : Bool :=
  ('a' ≤ c ∧ c ≤ 'z') ∨ ('0' ≤ c ∧ c ≤ '9')

/-- src/lib/utils/csv.ts:248 — clean a pivot-concept value: lowercase, strip
accents (NFD + combining-mark removal), keep only `[a-z0-9]`. -/
def pivotCleanVal (s : String) : String :=
  String.mk (((s.data.map jsLowerChar).map nfdBase).filter isLowerAlnumChar)

/-- Remove one leading and one trailing double quote
(`replace(/^"|"$/g, '')`, csv.ts:205). -/
def stripEdgeQuotes (s : String) : String :=
  let d1 := if s.data.head? = some '"' then s.data.tail else s.data
  String.mk (if d1.getLast? = some '"' then d1.dropLast else d1)

/-- src/lib/utils/csv.ts:205 — `c.trim().replace(/^"|"$/g, '')`: the field
cleaning of the pivot pass (trim, then strip the edge quotes). -/
def pivotClean (s : String) : String := stripEdgeQuotes (jsTrim s)

/-- A multilingual label of the range table (`label.fr` / `label.en`). -/
structure MelodiLabel where
  fr : Option String
  en : Option String
deriving DecidableEq

/-- One value descriptor of a range-table dimension. -/
structure MelodiRangeValue where
  code : String
  label : Option MelodiLabel
deriving DecidableEq

/-- The concept descriptor of a range-table dimension. -/
structure MelodiConcept where
  code : String
  label : Option MelodiLabel
deriving DecidableEq

/-- One dimension of the range table. -/
structure MelodiDim where
  concept : MelodiConcept
  values : Option (List MelodiRangeValue)
deriving DecidableEq

/-- Label lookup table built by the pivot: concept code → value code → label. -/
abbrev LabelsMap := List (String × List (String × String))

/-- JS `a || b` on an optional string: `b` when `a` is absent or empty. -/
def jsOrS (a : Option String) (b : String) : String :=
  match a with
  | some s => if s = "" then b else s
  | none => b

/-- src/lib/utils/csv.ts:168 — `v.label?.fr || v.label?.en || v.code`. -/
def valueLabel (v : MelodiRangeValue) : String :=
  jsOrS (v.label.bind MelodiLabel.fr) (jsOrS (v.label.bind MelodiLabel.en) v.code)

/-- src/lib/utils/csv.ts:161-172 — build `labelsMap` from the range table
(absent table → empty map; a repeated concept code resets and refills its
inner map; a repeated value code overwrites). -/
def buildLabelsMap (rangeTable : Option (List MelodiDim)) : LabelsMap :=
  (rangeTable.getD []).foldl (fun acc dim =>
    setAssoc acc dim.concept.code
      ((dim.values.getD []).foldl (fun m v => setAssoc m v.code (valueLabel v)) []))
    []

/-- src/lib/utils/csv.ts:175-177 — the mandatory fixed source columns. -/
def COL_TIME : String := "TIME_PERIOD"

/-- src/lib/utils/csv.ts:176 — the observation-value column name. -/
def COL_VAL : String := "OBS_VALUE"

/-- src/lib/utils/csv.ts:177 — the geography column name. -/
def COL_GEO : String := "GEO"

/-- src/lib/utils/csv.ts:227-230 — a concept sorts to the end when its
lowercased name contains `age`, `sex` or `sexe`. -/
def isEndConcept (key : String) : Bool :=
  let k := key.toLower
  k.containsSubstr "age" || k.containsSubstr "sex" || k.containsSubstr "sexe"

/-- Boolean order equivalent to the two-class comparator of csv.ts:226-237
(`c(a,b) ≤ 0`): an end-concept never precedes a non-end concept. -/
def conceptLe (a b : String) : Bool := ! (isEndConcept a && ! isEndConcept b)

/-- The comparator order of csv.ts:226-237 as a decidable relation. -/
def conceptLeP (a b : String) : Prop := conceptLe a b = true

instance : DecidableRel conceptLeP := fun a b =>
  inferInstanceAs (Decidable (conceptLe a b = true))

/-- src/lib/utils/csv.ts:226-237 — `[...pivotConcepts].sort(comparator)`:
JS `Array.sort` is stable (ES2019), so with the two-class comparator it is
the stable sort by `conceptLe` (end-concepts move after the others, relative
order preserved). -/
def sortPivotConcepts (concepts : List String) : List String :=
  concepts.insertionSort conceptLeP

/-- src/lib/utils/csv.ts:251 — `labelsMap[pc]?.[val] || val`: resolved label
of a pivot value, falling back to the raw value when missing or empty. -/
def humanLabel (labels : LabelsMap) (pc val : String) : String :=
  match lookupAssoc labels pc with
  | none => val
  | some m =>
    match lookupAssoc m val with
    | none => val
    | some l => if l = "" then val else l

/-- src/lib/utils/csv.ts:240-254 — the loop over the sorted pivot concepts:
a concept absent from the header contributes nothing; a present concept reads
`cols[idx]` (a row too short for a recorded index raises the `TypeError` of
`undefined.toLowerCase()`, aborting the whole pivot) and contributes its
cleaned value and its human-readable label. -/
def pivotPartsLoop (labels : LabelsMap) (ci : List (String × Nat))
    (cols : List String) : List String → Except String (List String × List String)
  | [] => .ok ([], [])
  | pc :: rest =>
    match lookupAssoc ci pc with
    | none => pivotPartsLoop labels ci cols rest
    | some idx =>
      match cols.get? idx with
      | none => .error "TypeError: val is undefined"
      | some val =>
        match pivotPartsLoop labels ci cols rest with
        | .error e => .error e
        | .ok (ps, ts) =>
          .ok (pivotCleanVal val :: ps, humanLabel labels pc val :: ts)

/-- One buffered output row (csv.ts:264-268): the fixed `GEO`/`TIME_PERIOD`
values captured at first sight, and the accumulated dynamic cells. A
synthesized column name is lowercase-alphanumeric (or the literal `value`),
so it can never collide with the uppercase fixed keys, which are therefore
modelled as separate fields. -/
structure PivotRow where
  geo : String
  time : String
  cells : List (String × JsNum)
deriving DecidableEq

/-- State of the pivot line loop: the column index map (`none` until the
header line is seen, csv.ts:207-216), the row buffer (insertion order, like a
JS `Map`), and the dynamic-header registry (first-wins, csv.ts:280-282). -/
structure PivotState where
  colIndices : Option (List (String × Nat))
  buffer : List (String × PivotRow)
  dynHeaders : List (String × String)
deriving DecidableEq

/-- src/lib/utils/csv.ts:208-209 — `cols.forEach((h, i) => colIndices[h] = i)`
(a duplicated header name keeps the last index). -/
def buildColIndicesFrom (acc : List (String × Nat)) (i : Nat) :
    List String → List (String × Nat)
  | [] => acc
  | c :: cs => buildColIndicesFrom (setAssoc acc c i) (i + 1) cs

/-- The column index map of a header row (csv.ts:208-209). -/
def buildColIndices (cols : List String) : List (String × Nat) :=
  buildColIndicesFrom [] 0 cols

/-- The contribution one data row makes to the pivot state: its row key and
captured fixed values, its synthesized column name and title, and its parsed
observation value. -/
structure Contrib where
  rowKey : String
  geo : String
  time : String
  colName : String
  colTitle : String
  value : JsNum
deriving DecidableEq

/-- src/lib/utils/csv.ts:205 — the cleaned fields of one line. -/
def pivotCols (line : String) : List String :=
  (jsSplitSemicolon line).map pivotClean

/-- src/lib/utils/csv.ts:203-277 — what a single source line contributes
(given the established column indices): `none` for a blank line or a row
whose `GEO` or `TIME_PERIOD` value is empty/missing (csv.ts:223); an error
when a recorded pivot index falls outside the row; otherwise the row key
`geo|time`, the synthesized column name (concatenated cleaned pivot values,
`value` when none resolves), the title (labels joined by ` - `, `Valeur` when
none resolves) and the parsed observation value (`(obsVal || '0')`). The
last match arm mirrors the header guarantee of csv.ts:212-214 (the three
mandatory columns are always recorded before any data line is processed) and
is unreachable through `pivotLines`. -/
def lineContrib (concepts : List String) (labels : LabelsMap)
    (ci : List (String × Nat)) (line : String) :
    Except String (Option Contrib) :=
  if jsTrim line = "" then .ok none
  else
    match lookupAssoc ci COL_GEO, lookupAssoc ci COL_TIME,
        lookupAssoc ci COL_VAL with
    | some gi, some ti, some vi =>
      if (pivotCols line).getD gi "" = "" ∨ (pivotCols line).getD ti "" = "" then
        .ok none
      else
        match pivotPartsLoop labels ci (pivotCols line)
            (sortPivotConcepts concepts) with
        | .error e => .error e
        | .ok (parts, titles) =>
          .ok (some
            { rowKey := (pivotCols line).getD gi "" ++ "|" ++
                (pivotCols line).getD ti ""
              geo := (pivotCols line).getD gi ""
              time := (pivotCols line).getD ti ""
              colName := if parts.isEmpty then "value" else String.join parts
              colTitle := if titles.isEmpty then "Valeur"
                else String.intercalate " - " titles
              value := parseJsNumber (if (pivotCols line).getD vi "" = ""
                then "0" else (pivotCols line).getD vi "") })
    | _, _, _ => .error "Missing required columns"

/-- src/lib/utils/csv.ts:263-269 — the buffer after the first-sight
initialization: `if (!buffer.has(rowKey)) buffer.set(rowKey, {geo, time})`. -/
def bufWithRow (st : PivotState) (cb : Contrib) : List (String × PivotRow) :=
  if containsKey st.buffer cb.rowKey then st.buffer
  else st.buffer ++ [(cb.rowKey, { geo := cb.geo, time := cb.time, cells := [] })]

/-- src/lib/utils/csv.ts:272-277 — the buffered row after the accumulation:
`rowObj[col] = (parseFloat(rowObj[col] || '0') + value).toString()` (the
stored string re-parses to the stored number, so cells hold numbers). -/
def rowAfter (st : PivotState) (cb : Contrib) : PivotRow :=
  let row := (lookupAssoc (bufWithRow st cb) cb.rowKey).getD
    { geo := cb.geo, time := cb.time, cells := [] }
  let prev := (lookupAssoc row.cells cb.colName).getD (some ⟨0, 0⟩)
  { row with cells := setAssoc row.cells cb.colName (jsAdd prev cb.value) }

/-- src/lib/utils/csv.ts:260-282 — apply a contribution to the state: create
the buffered row at first sight of its key (capturing `geo`/`time`), add the
observation value onto the previous cell value (zero when absent), and
register the dynamic column name with its title at first sight. -/
def applyContrib (st : PivotState) : Option Contrib → PivotState
  | none => st
  | some cb =>
    { st with
      buffer := (bufWithRow st cb).map
        (fun kv => if kv.1 = cb.rowKey then (cb.rowKey, rowAfter st cb) else kv)
      dynHeaders := if containsKey st.dynHeaders cb.colName then st.dynHeaders
        else st.dynHeaders ++ [(cb.colName, cb.colTitle)] }

/-- src/lib/utils/csv.ts:196-283 — one iteration of the line loop: skip blank
lines; the first non-blank line is the header (fatal when `GEO`,
`TIME_PERIOD` or `OBS_VALUE` is missing, csv.ts:212-214); afterwards each
line's contribution is applied to the state. -/
def pivotLine (concepts : List String) (labels : LabelsMap) (st : PivotState)
    (line : String) : Except String PivotState :=
  if jsTrim line = "" then .ok st
  else
    match st.colIndices with
    | none =>
      let ci := buildColIndices ((jsSplitSemicolon line).map pivotClean)
      if (lookupAssoc ci COL_GEO).isNone ∨ (lookupAssoc ci COL_TIME).isNone ∨
          (lookupAssoc ci COL_VAL).isNone then
        .error "Missing required columns"
      else .ok { st with colIndices := some ci }
    | some ci =>
      match lineContrib concepts labels ci line with
      | .error e => .error e
      | .ok o => .ok (applyContrib st o)

/-- The line loop folded over the source lines. -/
def pivotLines (concepts : List String) (labels : LabelsMap) :
    PivotState → List String → Except String PivotState
  | st, [] => .ok st
  | st, l :: ls =>
    match pivotLine concepts labels st l with
    | .error e => .error e
    | .ok st' => pivotLines concepts labels st' ls

/-- The state before any line is read. -/
def initPivotState : PivotState :=
  { colIndices := none, buffer := [], dynHeaders := [] }

/-- src/lib/utils/csv.ts:196-283 — the whole data pass of `pivotCsv`. -/
def pivotRun (concepts : List String) (rangeTable : Option (List MelodiDim))
    (lines : List String) : Except String PivotState :=
  pivotLines concepts (buildLabelsMap rangeTable) initPivotState lines

/-- Lexicographic order on character lists by code point: the default JS
`Array.sort` string comparison (UTF-16 code-unit order), which agrees with
code-point order on the synthesized names (ASCII). -/
def charListLe : List Char → List Char → Bool
  | [], _ => true
  | _ :: _, [] => false
  | a :: as, b :: bs =>
    if a.toNat < b.toNat then true
    else if b.toNat < a.toNat then false
    else charListLe as bs

/-- Lexicographic string order (the default JS sort comparison). -/
def strLe (a b : String) : Bool := charListLe a.data b.data

/-- The lexicographic string order as a decidable relation. -/
def strLeP (a b : String) : Prop := strLe a b = true

instance : DecidableRel strLeP := fun a b =>
  inferInstanceAs (Decidable (strLe a b = true))

/-- src/lib/utils/csv.ts:293 — the discovered dynamic column names sorted
ascending by the default string comparison. -/
def sortedDynHeaders (st : PivotState) : List String :=
  (st.dynHeaders.map Prod.fst).insertionSort strLeP

/-- src/lib/utils/csv.ts:306-309 — `rowData[header] || '0'`: the emitted
field of one dynamic column (a stored value renders via `toString`; a column
the row never contributed to defaults to `0`). -/
def cellField (r : PivotRow) (hname : String) : String :=
  match lookupAssoc r.cells hname with
  | some v => printJsNum v
  | none => "0"

/-- src/lib/utils/csv.ts:299-310 — one emitted data row: quoted `geo`, bare
`time`, then the dynamic fields in header order. -/
def pivotRowLine (sorted : List String) (r : PivotRow) : String :=
  String.intercalate ";" (quoteWrap r.geo :: r.time :: sorted.map (cellField r))

/-- src/lib/utils/csv.ts:286-311 — the emitted wide CSV: the header line
(`code_insee;periode` then the sorted dynamic names) followed by one line per
buffered row, in buffer insertion order. -/
def pivotOutputLines (st : PivotState) : List String :=
  String.intercalate ";" (["code_insee", "periode"] ++ sortedDynHeaders st) ::
    st.buffer.map (fun kv => pivotRowLine (sortedDynHeaders st) kv.2)

/-- The accumulated value of the cell `(rowKey, colName)`: `none` when the
row or the cell does not exist. -/
def cellValue (st : PivotState) (k c : String) : Option JsNum :=
  match lookupAssoc st.buffer k with
  | none => none
  | some r => lookupAssoc r.cells c

/-- The parsed observation values of the rows of `ls` contributing to the
cell `(k, c)`, in input order. -/
def contribsOf (concepts : List String) (labels : LabelsMap)
    (ci : List (String × Nat)) (ls : List String) (k c : String) : List JsNum :=
  ls.filterMap (fun l =>
    match lineContrib concepts labels ci l with
    | .ok (some cb) => if cb.rowKey = k ∧ cb.colName = c then some cb.value else none
    | _ => none)

/-- One accumulation step at a cell: add the contribution onto the previous
value, starting from zero when the cell does not exist yet (csv.ts:274-277). -/
def cellStep (acc : Option JsNum) (v : JsNum) : Option JsNum :=
  some (jsAdd (acc.getD (some ⟨0, 0⟩)) v)

/- ### Supporting lemmas for the pivot transformer -/

/-- Lookup after appending one binding: the original bindings shadow it. -/
theorem lookupAssoc_append_single {α : Type} (m : List (String × α))
    (k : String) (v : α) (k' : String) :
    lookupAssoc (m ++ [(k, v)]) k' =
      (match lookupAssoc m k' with
       | some x => some x
       | none => if k = k' then some v else none) := by
  induction m with
  | nil =>
    by_cases hk : k = k' <;> simp [lookupAssoc, hk]
  | cons p m ih =>
    by_cases hp : p.1 = k'
    · simp [lookupAssoc, hp]
    · simpa [lookupAssoc, hp] using ih

/-- Unfolding lemma for `lookupAssoc` on a cons cell. -/
theorem lookupAssoc_cons {α : Type} (p : String × α) (m : List (String × α))
    (k : String) :
    lookupAssoc (p :: m) k = (if p.1 = k then some p.2 else lookupAssoc m k) := by
  cases p
  rfl

/-- Lookup after overwriting every binding of a key in place. -/
theorem lookupAssoc_map_set {α : Type} (m : List (String × α)) (key : String)
    (v : α) (k : String) :
    lookupAssoc (m.map (fun kv => if kv.1 = key then (key, v) else kv)) k =
      (if key = k then (lookupAssoc m key).map (fun _ => v)
       else lookupAssoc m k) := by
  induction m with
  | nil => by_cases hk : key = k <;> simp [lookupAssoc, hk]
  | cons p m ih =>
    simp only [List.map_cons]
    by_cases hpkey : p.1 = key
    · by_cases hk : key = k
      · subst hk
        simp [lookupAssoc_cons, hpkey]
      · have hpk : ¬ p.1 = k := fun h => hk (hpkey ▸ h)
        rw [if_pos hpkey]
        simp [lookupAssoc_cons, ih, hpk, hk]
    · by_cases hk : key = k
      · subst hk
        rw [if_neg hpkey]
        simp [lookupAssoc_cons, ih, hpkey]
      · rw [if_neg hpkey]
        simp [lookupAssoc_cons, ih, hk]

/-- `containsKey` agrees with `lookupAssoc` success. -/
theorem containsKey_eq_isSome {α : Type} (m : List (String × α)) (k : String) :
    containsKey m k = (lookupAssoc m k).isSome := by
  induction m with
  | nil => rfl
  | cons p m ih =>
    by_cases hp : p.1 = k
    · simp [containsKey, lookupAssoc, hp]
    · simpa [containsKey, lookupAssoc, hp] using ih

/-- Lookup after a JS assignment: the assigned key reads the new value,
every other key is untouched. -/
theorem lookupAssoc_setAssoc {α : Type} (m : List (String × α)) (k : String)
    (v : α) (k' : String) :
    lookupAssoc (setAssoc m k v) k' =
      (if k = k' then some v else lookupAssoc m k') := by
  unfold setAssoc
  by_cases hc : containsKey m k = true
  · rw [if_pos hc, lookupAssoc_map_set]
    by_cases hk : k = k'
    · rw [if_pos hk, if_pos hk]
      rw [containsKey_eq_isSome] at hc
      cases h : lookupAssoc m k with
      | none => rw [h] at hc; simp at hc
      | some x => simp
    · rw [if_neg hk, if_neg hk]
  · rw [if_neg (by simpa using hc), lookupAssoc_append_single]
    by_cases hk : k = k'
    · rw [containsKey_eq_isSome] at hc
      cases h : lookupAssoc m k' with
      | none => simp [hk]
      | some x =>
        rw [← hk] at h
        rw [h] at hc
        simp at hc
    · cases h : lookupAssoc m k' with
      | none => simp [hk]
      | some x => simp [hk]

/-- The first-sight-initialized buffer always holds the contribution's row
key, bound to the existing row or to the fresh one. -/
theorem lookup_bufWithRow_key (st : PivotState) (cb : Contrib) :
    lookupAssoc (bufWithRow st cb) cb.rowKey =
      some ((lookupAssoc st.buffer cb.rowKey).getD
        { geo := cb.geo, time := cb.time, cells := [] }) := by
  unfold bufWithRow
  by_cases hc : containsKey st.buffer cb.rowKey = true
  · rw [if_pos hc]
    rw [containsKey_eq_isSome] at hc
    cases h : lookupAssoc st.buffer cb.rowKey with
    | none => rw [h] at hc; simp at hc
    | some r => simp
  · rw [if_neg (by simpa using hc), lookupAssoc_append_single]
    rw [containsKey_eq_isSome] at hc
    cases h : lookupAssoc st.buffer cb.rowKey with
    | none => simp
    | some r => rw [h] at hc; simp at hc

/-- Other row keys are untouched by the first-sight initialization. -/
theorem lookup_bufWithRow_ne (st : PivotState) (cb : Contrib) (k : String)
    (hk : cb.rowKey ≠ k) :
    lookupAssoc (bufWithRow st cb) k = lookupAssoc st.buffer k := by
  unfold bufWithRow
  by_cases hc : containsKey st.buffer cb.rowKey = true
  · rw [if_pos hc]
  · rw [if_neg (by simpa using hc), lookupAssoc_append_single]
    cases h : lookupAssoc st.buffer k with
    | none => simp [hk]
    | some r => simp

/-- Buffer lookup after applying a contribution: the contribution's row key
reads the accumulated row, every other key is untouched. -/
theorem buffer_applyContrib_lookup (st : PivotState) (cb : Contrib) (k : String) :
    lookupAssoc (applyContrib st (some cb)).buffer k =
      (if cb.rowKey = k then some (rowAfter st cb) else lookupAssoc st.buffer k) := by
  show lookupAssoc ((bufWithRow st cb).map
    (fun kv => if kv.1 = cb.rowKey then (cb.rowKey, rowAfter st cb) else kv)) k = _
  rw [lookupAssoc_map_set]
  by_cases hk : cb.rowKey = k
  · rw [if_pos hk, if_pos hk, lookup_bufWithRow_key]
    simp
  · rw [if_neg hk, if_neg hk]
    exact lookup_bufWithRow_ne st cb k hk

/-- Applying a contribution never changes the column index map. -/
theorem applyContrib_colIndices (st : PivotState) (o : Option Contrib) :
    (applyContrib st o).colIndices = st.colIndices := by
  cases o with
  | none => rfl
  | some cb => rfl

/-- Cell semantics of one contribution: the targeted cell accumulates (from
zero at first sight), every other cell is untouched. -/
theorem cellValue_applyContrib (st : PivotState) (cb : Contrib) (k c : String) :
    cellValue (applyContrib st (some cb)) k c =
      (if cb.rowKey = k ∧ cb.colName = c then cellStep (cellValue st k c) cb.value
       else cellValue st k c) := by
  unfold cellValue
  rw [buffer_applyContrib_lookup]
  by_cases hk : cb.rowKey = k
  · subst hk
    rw [if_pos rfl]
    show lookupAssoc (rowAfter st cb).cells c = _
    have hcells : (rowAfter st cb).cells =
        setAssoc ((lookupAssoc st.buffer cb.rowKey).getD
            { geo := cb.geo, time := cb.time, cells := [] }).cells cb.colName
          (jsAdd ((lookupAssoc ((lookupAssoc st.buffer cb.rowKey).getD
                { geo := cb.geo, time := cb.time, cells := [] }).cells
              cb.colName).getD (some ⟨0, 0⟩)) cb.value) := by
      unfold rowAfter
      rw [lookup_bufWithRow_key]
      rfl
    rw [hcells, lookupAssoc_setAssoc]
    by_cases hc : cb.colName = c
    · subst hc
      rw [if_pos rfl, if_pos ⟨rfl, rfl⟩]
      cases hb : lookupAssoc st.buffer cb.rowKey with
      | none => simp [cellStep, lookupAssoc]
      | some r => simp [cellStep]
    · rw [if_neg hc, if_neg (fun h => hc h.2)]
      cases hb : lookupAssoc st.buffer cb.rowKey with
      | none => simp [lookupAssoc]
      | some r => simp
  · rw [if_neg hk, if_neg (fun h => hk h.1)]

/-- With the column indices established, one loop iteration is exactly the
line's contribution applied to the state. -/
theorem pivotLine_eq_contrib (concepts : List String) (labels : LabelsMap)
    (st : PivotState) (ci : List (String × Nat)) (hci : st.colIndices = some ci)
    (line : String) :
    pivotLine concepts labels st line =
      (lineContrib concepts labels ci line).map (applyContrib st) := by
  unfold pivotLine
  by_cases hb : jsTrim line = ""
  · rw [if_pos hb]
    have hcon : lineContrib concepts labels ci line = .ok none := by
      unfold lineContrib
      rw [if_pos hb]
    rw [hcon]
    rfl
  · rw [if_neg hb, hci]
    cases h : lineContrib concepts labels ci line with
    | error e => simp [Except.map, h]
    | ok o => simp [Except.map, h]

/-- Claim C5: accumulation sums the contributions. After processing any list
of data lines from a state with established column indices, the value at any
cell `(k, c)` is the fold of `cellStep` (add onto the previous value,
starting from zero at first contribution) over the parsed observation values
of exactly the rows that map to that cell, in input order, starting from the
cell's previous content — in particular the accumulated value is the sum of
the contributions, so splitting one row into two rows with the same key and
pivot values and observation values summing alike yields the same cell. -/
theorem pivot_cell_sum (concepts : List String) (labels : LabelsMap)
    (ls : List String) :
    ∀ (st : PivotState) (ci : List (String × Nat)), st.colIndices = some ci →
      ∀ st' : PivotState, pivotLines concepts labels st ls = .ok st' →
        ∀ k c : String,
          cellValue st' k c =
            (contribsOf concepts labels ci ls k c).foldl cellStep
              (cellValue st k c) := by
  induction ls with
  | nil =>
    intro st ci hci st' hrun k c
    unfold pivotLines at hrun
    simp only [Except.ok.injEq] at hrun
    subst hrun
    rfl
  | cons l ls ih =>
    intro st ci hci st' hrun k c
    unfold pivotLines at hrun
    rw [pivotLine_eq_contrib concepts labels st ci hci l] at hrun
    cases h : lineContrib concepts labels ci l with
    | error e =>
      rw [h] at hrun
      simp [Except.map] at hrun
    | ok o =>
      rw [h] at hrun
      simp only [Except.map] at hrun
      have hci' : (applyContrib st o).colIndices = some ci := by
        rw [applyContrib_colIndices]
        exact hci
      have ihh := ih (applyContrib st o) ci hci' st' hrun k c
      cases o with
      | none =>
        simp only [contribsOf, List.filterMap_cons, h]
        exact ihh
      | some cb =>
        by_cases hkc : cb.rowKey = k ∧ cb.colName = c
        · have hcontribs : contribsOf concepts labels ci (l :: ls) k c =
              cb.value :: contribsOf concepts labels ci ls k c := by
            simp only [contribsOf, List.filterMap_cons, h, if_pos hkc]
          rw [hcontribs, List.foldl_cons, ihh,
            cellValue_applyContrib, if_pos hkc]
        · have hcontribs : contribsOf concepts labels ci (l :: ls) k c =
              contribsOf concepts labels ci ls k c := by
            simp only [contribsOf, List.filterMap_cons, h, if_neg hkc]
          rw [hcontribs, ihh, cellValue_applyContrib, if_neg hkc]

/-- Claim C4 counterexample: the claim states that every data row contributes
to the output, with empty keep-column values becoming empty key segments. At
the concrete source `GEO;TIME_PERIOD;OBS_VALUE` with the single data row
`;2021;5` (empty `GEO`), the pivot pass drops the row: the buffer stays
empty and the emitted wide CSV is the bare header with no data rows. -/
theorem pivot_empty_keep_row_dropped :
    (pivotRun [] none ["GEO;TIME_PERIOD;OBS_VALUE", ";2021;5"]).map
      (fun st => st.buffer) = .ok [] ∧
    (pivotRun [] none ["GEO;TIME_PERIOD;OBS_VALUE", ";2021;5"]).map
      pivotOutputLines = .ok ["code_insee;periode"] := by
  exact ⟨rfl, rfl⟩

/-- Claim C4 (amended): for each data line, the fixed row key is the
`|`-joined `GEO` and `TIME_PERIOD` values in that order — but only rows whose
`GEO` and `TIME_PERIOD` cleaned values are both non-empty contribute: a row
with an empty or missing keep value is skipped entirely (the state is
unchanged), so it produces no key at all rather than an empty key segment. -/
theorem pivot_rowkey_skips_empty (concepts : List String) (labels : LabelsMap)
    (st : PivotState) (ci : List (String × Nat)) (hci : st.colIndices = some ci)
    (line : String) (gi ti vi : Nat)
    (hg : lookupAssoc ci COL_GEO = some gi)
    (ht : lookupAssoc ci COL_TIME = some ti)
    (hv : lookupAssoc ci COL_VAL = some vi) :
    (((pivotCols line).getD gi "" = "" ∨ (pivotCols line).getD ti "" = "") →
      pivotLine concepts labels st line = .ok st) ∧
    (∀ st', pivotLine concepts labels st line = .ok st' →
      jsTrim line ≠ "" →
      containsKey st'.buffer
        ((pivotCols line).getD gi "" ++ "|" ++ (pivotCols line).getD ti "")
        = true ∨
      ((pivotCols line).getD gi "" = "" ∨ (pivotCols line).getD ti "" = "")) := by
  constructor
  · intro hempty
    rw [pivotLine_eq_contrib concepts labels st ci hci]
    by_cases hb : jsTrim line = ""
    · have hcon : lineContrib concepts labels ci line = .ok none := by
        unfold lineContrib
        rw [if_pos hb]
      rw [hcon]
      rfl
    · have hcon : lineContrib concepts labels ci line = .ok none := by
        unfold lineContrib
        rw [if_neg hb, hg, ht, hv]
        simp only [if_pos hempty]
      rw [hcon]
      rfl
  · intro st' hok hb
    by_cases hempty : (pivotCols line).getD gi "" = "" ∨
        (pivotCols line).getD ti "" = ""
    · exact Or.inr hempty
    · left
      rw [pivotLine_eq_contrib concepts labels st ci hci] at hok
      unfold lineContrib at hok
      rw [if_neg hb, hg, ht, hv] at hok
      simp only [if_neg hempty] at hok
      cases hp : pivotPartsLoop labels ci (pivotCols line)
          (sortPivotConcepts concepts) with
      | error e =>
        rw [hp] at hok
        simp [Except.map] at hok
      | ok pt =>
        rw [hp] at hok
        obtain ⟨parts, titles⟩ := pt
        simp only [Except.map, Except.ok.injEq] at hok
        subst hok
        rw [containsKey_eq_isSome, buffer_applyContrib_lookup, if_pos rfl]
        rfl

/-- Claim C4 witness: under the header `GEO;TIME_PERIOD;OBS_VALUE`, the data
row `;2021;5` (empty `GEO`) leaves the state unchanged, while the row
`FR;2021;5` creates the buffered row keyed `FR|2021`. -/
theorem pivot_rowkey_skips_empty_witness :
    pivotLine [] []
      { colIndices := some [("GEO", 0), ("TIME_PERIOD", 1), ("OBS_VALUE", 2)],
        buffer := [], dynHeaders := [] } ";2021;5" =
      Except.ok
        ({ colIndices := some [("GEO", 0), ("TIME_PERIOD", 1), ("OBS_VALUE", 2)],
           buffer := [], dynHeaders := [] } : PivotState) ∧
    containsKey
      ({ colIndices := some [("GEO", 0), ("TIME_PERIOD", 1), ("OBS_VALUE", 2)],
         buffer :=
           [("FR|2021",
             { geo := "FR", time := "2021", cells := [("value", some ⟨5, 0⟩)] })],
         dynHeaders := [("value", "Valeur")] } : PivotState).buffer "FR|2021"
      = true := by
  constructor
  · exact (pivot_rowkey_skips_empty [] []
      { colIndices := some [("GEO", 0), ("TIME_PERIOD", 1), ("OBS_VALUE", 2)],
        buffer := [], dynHeaders := [] }
      [("GEO", 0), ("TIME_PERIOD", 1), ("OBS_VALUE", 2)] rfl ";2021;5"
      0 1 2 rfl rfl rfl).1 (Or.inl (by decide))
  · rcases (pivot_rowkey_skips_empty [] []
      { colIndices := some [("GEO", 0), ("TIME_PERIOD", 1), ("OBS_VALUE", 2)],
        buffer := [], dynHeaders := [] }
      [("GEO", 0), ("TIME_PERIOD", 1), ("OBS_VALUE", 2)] rfl "FR;2021;5"
      0 1 2 rfl rfl rfl).2
      { colIndices := some [("GEO", 0), ("TIME_PERIOD", 1), ("OBS_VALUE", 2)],
        buffer :=
          [("FR|2021",
            { geo := "FR", time := "2021", cells := [("value", some ⟨5, 0⟩)] })],
        dynHeaders := [("value", "Valeur")] }
      (by rfl) (by decide) with h | h
    · exact h
    · exact absurd h (by decide)

/-- Claim C5 witness, the row-splitting scenario of the claim: over the
header `GEO;TIME_PERIOD;SEXE;OBS_VALUE` pivoted on `SEXE`, the two rows
`FR;2021;M;40` and `FR;2021;M;60` accumulate the cell `(FR|2021, m)` to 100,
the same value as the single unsplit row `FR;2021;M;100`. -/
theorem pivot_cell_sum_witness :
    (pivotRun ["SEXE"] none
        ["GEO;TIME_PERIOD;SEXE;OBS_VALUE", "FR;2021;M;40", "FR;2021;M;60"]).map
      (fun st => cellValue st "FR|2021" "m") = .ok (some (some ⟨100, 0⟩)) ∧
    (pivotRun ["SEXE"] none
        ["GEO;TIME_PERIOD;SEXE;OBS_VALUE", "FR;2021;M;100"]).map
      (fun st => cellValue st "FR|2021" "m") = .ok (some (some ⟨100, 0⟩)) := by
  constructor
  · have h := pivot_cell_sum ["SEXE"] [] ["FR;2021;M;40", "FR;2021;M;60"]
      { colIndices :=
          some [("GEO", 0), ("TIME_PERIOD", 1), ("SEXE", 2), ("OBS_VALUE", 3)],
        buffer := [], dynHeaders := [] }
      [("GEO", 0), ("TIME_PERIOD", 1), ("SEXE", 2), ("OBS_VALUE", 3)] rfl
      { colIndices :=
          some [("GEO", 0), ("TIME_PERIOD", 1), ("SEXE", 2), ("OBS_VALUE", 3)],
        buffer :=
          [("FR|2021",
            { geo := "FR", time := "2021", cells := [("m", some ⟨100, 0⟩)] })],
        dynHeaders := [("m", "M")] }
      (by rfl) "FR|2021" "m"
    calc (pivotRun ["SEXE"] none
            ["GEO;TIME_PERIOD;SEXE;OBS_VALUE", "FR;2021;M;40",
              "FR;2021;M;60"]).map (fun st => cellValue st "FR|2021" "m")
        = .ok (cellValue
            { colIndices :=
                some [("GEO", 0), ("TIME_PERIOD", 1), ("SEXE", 2), ("OBS_VALUE", 3)],
              buffer :=
                [("FR|2021",
                  { geo := "FR", time := "2021", cells := [("m", some ⟨100, 0⟩)] })],
              dynHeaders := [("m", "M")] } "FR|2021" "m") := by rfl
      _ = .ok (some (some ⟨100, 0⟩)) := by rw [h]; exact rfl
  · have h := pivot_cell_sum ["SEXE"] [] ["FR;2021;M;100"]
      { colIndices :=
          some [("GEO", 0), ("TIME_PERIOD", 1), ("SEXE", 2), ("OBS_VALUE", 3)],
        buffer := [], dynHeaders := [] }
      [("GEO", 0), ("TIME_PERIOD", 1), ("SEXE", 2), ("OBS_VALUE", 3)] rfl
      { colIndices :=
          some [("GEO", 0), ("TIME_PERIOD", 1), ("SEXE", 2), ("OBS_VALUE", 3)],
        buffer :=
          [("FR|2021",
            { geo := "FR", time := "2021", cells := [("m", some ⟨100, 0⟩)] })],
        dynHeaders := [("m", "M")] }
      (by rfl) "FR|2021" "m"
    calc (pivotRun ["SEXE"] none
            ["GEO;TIME_PERIOD;SEXE;OBS_VALUE", "FR;2021;M;100"]).map
          (fun st => cellValue st "FR|2021" "m")
        = .ok (cellValue
            { colIndices :=
                some [("GEO", 0), ("TIME_PERIOD", 1), ("SEXE", 2), ("OBS_VALUE", 3)],
              buffer :=
                [("FR|2021",
                  { geo := "FR", time := "2021", cells := [("m", some ⟨100, 0⟩)] })],
              dynHeaders := [("m", "M")] } "FR|2021" "m") := by rfl
      _ = .ok (some (some ⟨100, 0⟩)) := by rw [h]; exact rfl

/-- The lexicographic character order is total. -/
theorem charListLe_total (a : List Char) :
    ∀ b : List Char, charListLe a b = true ∨ charListLe b a = true := by
  induction a with
  | nil => intro b; left; rfl
  | cons x xs ih =>
    intro b
    cases b with
    | nil => right; rfl
    | cons y ys =>
      by_cases hxy : x.toNat < y.toNat
      · left; simp [charListLe, hxy]
      · by_cases hyx : y.toNat < x.toNat
        · right; simp [charListLe, hyx]
        · rcases ih ys with h | h
          · left; simp [charListLe, hxy, hyx, h]
          · right; simp [charListLe, hxy, hyx, h]

/-- The lexicographic character order is transitive. -/
theorem charListLe_trans (a : List Char) :
    ∀ b c : List Char, charListLe a b = true → charListLe b c = true →
      charListLe a c = true := by
  induction a with
  | nil => intro b c _ _; rfl
  | cons x xs ih =>
    intro b c hab hbc
    cases b with
    | nil => simp [charListLe] at hab
    | cons y ys =>
      cases c with
      | nil => simp [charListLe] at hbc
      | cons z zs =>
        simp only [charListLe] at hab hbc ⊢
        by_cases hxy : x.toNat < y.toNat
        · by_cases hyz : y.toNat < z.toNat
          · simp [show x.toNat < z.toNat by omega]
          · by_cases hzy : z.toNat < y.toNat
            · rw [if_neg hyz, if_pos hzy] at hbc
              simp at hbc
            · simp [show x.toNat < z.toNat by omega]
        · by_cases hyx : y.toNat < x.toNat
          · rw [if_neg hxy, if_pos hyx] at hab
            simp at hab
          · by_cases hyz : y.toNat < z.toNat
            · simp [show x.toNat < z.toNat by omega]
            · by_cases hzy : z.toNat < y.toNat
              · rw [if_neg hyz, if_pos hzy] at hbc
                simp at hbc
              · rw [if_neg hxy, if_neg hyx] at hab
                rw [if_neg hyz, if_neg hzy] at hbc
                rw [if_neg (show ¬ x.toNat < z.toNat by omega),
                  if_neg (show ¬ z.toNat < x.toNat by omega)]
                exact ih ys zs hab hbc

instance : IsTotal String strLeP :=
  ⟨fun a b => charListLe_total a.data b.data⟩

instance : IsTrans String strLeP :=
  ⟨fun a b c hab hbc => charListLe_trans a.data b.data c.data hab hbc⟩

/-- Claim C6: the emitted wide-CSV header is the fixed kept columns
(`code_insee`, `periode`) followed by the dynamic-column segment sorted
ascending in the lexicographic string order; the sorted segment is a
permutation of all discovered dynamic columns; each data row emits the kept
values then one field per dynamic column in that order; and a dynamic column
the row never contributed to is emitted as `0`. -/
theorem pivot_header_sorted_default_zero (st : PivotState) :
    List.Sorted strLeP (sortedDynHeaders st) ∧
    (sortedDynHeaders st).Perm (st.dynHeaders.map Prod.fst) ∧
    pivotOutputLines st =
      String.intercalate ";" (["code_insee", "periode"] ++ sortedDynHeaders st) ::
        st.buffer.map (fun kv => String.intercalate ";"
          (quoteWrap kv.2.geo :: kv.2.time ::
            (sortedDynHeaders st).map (cellField kv.2))) ∧
    ∀ (r : PivotRow) (hname : String),
      lookupAssoc r.cells hname = none → cellField r hname = "0" := by
  refine ⟨List.sorted_insertionSort strLeP _,
    List.perm_insertionSort strLeP _, rfl, ?_⟩
  intro r hname hnone
  unfold cellField
  rw [hnone]

/-- Claim C6 witness: with discovered dynamic columns registered as `m` then
`f`, the emitted order is `f` before `m` (sorted), it is a permutation of the
registry, and a row holding only an `m` cell emits `0` for `f`. -/
theorem pivot_header_sorted_default_zero_witness :
    List.Sorted strLeP (sortedDynHeaders
      { colIndices := none, buffer := [],
        dynHeaders := [("m", "Homme"), ("f", "Femme")] }) ∧
    sortedDynHeaders
      { colIndices := none, buffer := [],
        dynHeaders := [("m", "Homme"), ("f", "Femme")] } = ["f", "m"] ∧
    cellField
      { geo := "DE", time := "2021", cells := [("m", some ⟨5, 0⟩)] } "f"
      = "0" := by
  refine ⟨(pivot_header_sorted_default_zero
    { colIndices := none, buffer := [],
      dynHeaders := [("m", "Homme"), ("f", "Femme")] }).1, by decide, ?_⟩
  exact (pivot_header_sorted_default_zero
    { colIndices := none, buffer := [], dynHeaders := [] }).2.2.2
    { geo := "DE", time := "2021", cells := [("m", some ⟨5, 0⟩)] } "f"
    (by decide)
